import Mathlib

set_option linter.unusedVariables false

/- Verification of the Arm NEON fancy upsampling kernels in
   simd/arm/common/jdsample-neon.c.

   Sample rows are modelled as total functions from a column index to the
   natural number stored in that byte of the buffer; reading a sample
   (GETJSAMPLE or a vld1q_u8 lane) reduces the value modulo 256, since the
   buffers hold bytes.  The row-pointer tables are modelled as functions
   from an integer row index (the code accesses input_data[inrow - 1]) to a
   row.  Each kernel invocation is modelled as the list of (index, value)
   stores it performs on an output row, in program order; the final content
   of the row is obtained by replaying the stores over an arbitrary initial
   buffer, so overlapping stores are resolved exactly as the hardware does
   (the later store wins). -/

/-- Reading one sample from a row buffer.  GETJSAMPLE and the NEON byte
loads both yield the byte value, i.e. the stored number reduced mod 256. -/
def getjsample (r : ℕ → ℕ) (c : ℕ) : ℕ := r c % 256

/-- Vertical 3:1 blend of the current sample row `r1` with an adjacent row
`radj` at column `c`: the 16-bit lane computed by
`vmlal_u8(vmovl_u8(radj), r1, three_u8)` (jdsample-neon.c lines 132-151),
and equally the scalar `GETJSAMPLE(r1[c]) * 3 + GETJSAMPLE(radj[c])`
(lines 116, 118, 245, 248).  NEON 16-bit lanes wrap modulo 2^16. -/
def colsum (r1 radj : ℕ → ℕ) (c : ℕ) : ℕ :=
  (3 * getjsample r1 c + getjsample radj c) % 65536

/-- Value stored at odd output index `2*c-1` (the pixel just left of the
boundary between input columns `c-1` and `c`):
`vmlaq_u16(s1colsum, s0colsum, three_u16)` (weight 3 on column `c-1`),
then `vaddq_u16 seven_u16`, then the truncating narrow `vshrn_n_u16 _ 4`
which keeps bits 4..11 of the 16-bit lane (lines 153-154, 162-163,
167-168). -/
def h2v2OddVal (cs : ℕ → ℕ) (c : ℕ) : ℕ :=
  (((3 * cs (c - 1) + cs c) % 65536 + 7) % 65536) / 16 % 256

/-- Value stored at even output index `2*c` (the pixel just right of the
boundary between input columns `c-1` and `c`):
`vmlaq_u16(s0colsum, s1colsum, three_u16)` (weight 3 on column `c`), then
the rounding narrow `vrshrn_n_u16 _ 4` which adds 8 in full precision
before shifting (lines 155-156, 169-170). -/
def h2v2EvenVal (cs : ℕ → ℕ) (c : ℕ) : ℕ :=
  ((cs (c - 1) + 3 * cs c) % 65536 + 8) / 16 % 256

/-- First pixel of a row: `(JSAMPLE)((s0colsum * 4 + 8) >> 4)`
(lines 116-119); the scalar arithmetic is done in C `int`, the cast to
JSAMPLE keeps the low byte. -/
def h2v2FirstVal (cs : ℕ → ℕ) : ℕ := (cs 0 * 4 + 8) / 16 % 256

/-- Last pixel of a row: `(JSAMPLE)((s1colsum * 4 + 7) >> 4)` on the last
input column (lines 244-250). -/
def h2v2LastVal (cs : ℕ → ℕ) (w : ℕ) : ℕ := (cs (w - 1) * 4 + 7) / 16 % 256

/-- One `vst2q_u8` of a 16-lane pair of pixel vectors for one output row.
Lane `j` works on the column pair `(a+j, a+j+1)`: the `s0` loads start at
input column `a` and the `s1` loads at column `a+1`.  The interleaved
store puts the biased/truncated vector at odd addresses `2*(a+j)+1` and
the rounded vector at even addresses `2*(a+j)+2` (lines 127-182 for the
first block where `a = 0` and the store base is `outptr + 1`; lines
193-241 for the loop blocks where `a = colctr - 1` and the store base is
`outptr + 2*colctr - 1`). -/
def vst2Block (cs : ℕ → ℕ) (a : ℕ) : List (ℕ × ℕ) :=
  (List.range 16).flatMap fun j =>
    [(2 * (a + j) + 1, h2v2OddVal cs (a + j + 1)),
     (2 * (a + j) + 2, h2v2EvenVal cs (a + j + 1))]

/-- All stores performed on one output row of the h2v2 kernel, in program
order: the scalar first-pixel store (lines 116-119), the unconditional
first 16-wide block (lines 127-182), the blocks of the
`for (colctr = 16; colctr < downsampled_width; colctr += 16)` loop (lines
190-242) — the loop body runs for `colctr = 16*(k+1)`, `k <
(downsampled_width-1)/16` — and the scalar last-pixel store at index
`2*downsampled_width - 1` (lines 244-250). -/
def h2v2RowStores (cs : ℕ → ℕ) (w : ℕ) : List (ℕ × ℕ) :=
  ((0, h2v2FirstVal cs) :: vst2Block cs 0)
    ++ ((List.range ((w - 1) / 16)).flatMap fun k => vst2Block cs (16 * (k + 1) - 1))
    ++ [(2 * w - 1, h2v2LastVal cs w)]

/-- Replay a list of stores over a buffer, in order: a later store to the
same index overwrites an earlier one. -/
def applyStores (l : List (ℕ × ℕ)) (buf : ℕ → ℕ) : ℕ → ℕ :=
  l.foldl (fun b e => fun i => if i = e.1 then e.2 else b i) buf

/-- Top output row (`outptr0`) produced by one iteration of the h2v2 row
loop from context rows `r0` (above), `r1` (current), `r2` (below): all of
its vertical blends use `inptr0`, i.e. `r0`.  The initial buffer content
is irrelevant (taken as 0). -/
def neonH2V2Top (r0 r1 r2 : ℕ → ℕ) (w : ℕ) : ℕ → ℕ :=
  applyStores (h2v2RowStores (colsum r1 r0) w) fun _ => 0

/-- Bottom output row (`outptr1`) of the same iteration: identical store
sequence but every vertical blend uses `inptr2`, i.e. `r2`. -/
def neonH2V2Bot (r0 r1 r2 : ℕ → ℕ) (w : ℕ) : ℕ → ℕ :=
  applyStores (h2v2RowStores (colsum r1 r2) w) fun _ => 0

/-- Output row `2*i` of `jsimd_h2v2_fancy_upsample_neon`: the iteration
with `inrow = i` reads `input_data[i-1], input_data[i], input_data[i+1]`
(lines 107-109) and writes its top row to `output_data[2*i]`. -/
def h2v2OutTop (input : ℤ → ℕ → ℕ) (w i : ℕ) : ℕ → ℕ :=
  neonH2V2Top (input ((i : ℤ) - 1)) (input (i : ℤ)) (input ((i : ℤ) + 1)) w

/-- Output row `2*i+1` of `jsimd_h2v2_fancy_upsample_neon`. -/
def h2v2OutBot (input : ℤ → ℕ → ℕ) (w i : ℕ) : ℕ → ℕ :=
  neonH2V2Bot (input ((i : ℤ) - 1)) (input (i : ℤ)) (input ((i : ℤ) + 1)) w

/-- The full h2v2 invocation (lines 92-253): the
`while (outrow < max_v_samp_factor)` loop appends two output rows per
input row, running for `ceil(max_v_samp_factor / 2)` iterations. -/
def jsimd_h2v2_fancy_upsample_neon (max_v_samp_factor w : ℕ)
    (input : ℤ → ℕ → ℕ) : List (ℕ → ℕ) :=
  (List.range ((max_v_samp_factor + 1) / 2)).flatMap fun inrow =>
    [h2v2OutTop input w inrow, h2v2OutBot input w inrow]

/-- Lane value of the h1v2 top output row at column `c`:
`vaddq_u16(colsum0, one_u16)` then truncating `vshrn_n_u16 _ 2`
(lines 337-341). -/
def h1v2TopVal (cs : ℕ → ℕ) (c : ℕ) : ℕ := ((cs c + 1) % 65536) / 4 % 256

/-- Lane value of the h1v2 bottom output row at column `c`: the rounding
narrow `vrshrn_n_u16(colsum1, 2)`, which adds 2 in full precision before
shifting (lines 342-343). -/
def h1v2BotVal (cs : ℕ → ℕ) (c : ℕ) : ℕ := (cs c + 2) / 4 % 256

/-- All stores of one h1v2 output row: the
`for (colctr = 0; colctr < downsampled_width; colctr += 16)` loop (lines
322-347) runs `ceil(downsampled_width/16)` blocks; block `k` stores the 16
lane values for columns `16*k .. 16*k+15` with `vst1q_u8`. -/
def h1v2RowStores (val : ℕ → ℕ) (w : ℕ) : List (ℕ × ℕ) :=
  (List.range ((w + 15) / 16)).flatMap fun k =>
    (List.range 16).map fun j => (16 * k + j, val (16 * k + j))

/-- Top output row of one h1v2 iteration (blends with the row above). -/
def neonH1V2Top (r0 r1 r2 : ℕ → ℕ) (w : ℕ) : ℕ → ℕ :=
  applyStores (h1v2RowStores (h1v2TopVal (colsum r1 r0)) w) fun _ => 0

/-- Bottom output row of one h1v2 iteration (blends with the row below). -/
def neonH1V2Bot (r0 r1 r2 : ℕ → ℕ) (w : ℕ) : ℕ → ℕ :=
  applyStores (h1v2RowStores (h1v2BotVal (colsum r1 r2)) w) fun _ => 0

/-- Output row `2*i` of `jsimd_h1v2_fancy_upsample_neon` (lines 296-349). -/
def h1v2OutTop (input : ℤ → ℕ → ℕ) (w i : ℕ) : ℕ → ℕ :=
  neonH1V2Top (input ((i : ℤ) - 1)) (input (i : ℤ)) (input ((i : ℤ) + 1)) w

/-- Output row `2*i+1` of `jsimd_h1v2_fancy_upsample_neon`. -/
def h1v2OutBot (input : ℤ → ℕ → ℕ) (w i : ℕ) : ℕ → ℕ :=
  neonH1V2Bot (input ((i : ℤ) - 1)) (input (i : ℤ)) (input ((i : ℤ) + 1)) w

/-- The full h1v2 invocation: two output rows per input row. -/
def jsimd_h1v2_fancy_upsample_neon (max_v_samp_factor w : ℕ)
    (input : ℤ → ℕ → ℕ) : List (ℕ → ℕ) :=
  (List.range ((max_v_samp_factor + 1) / 2)).flatMap fun inrow =>
    [h1v2OutTop input w inrow, h1v2OutBot input w inrow]

/-- Modelled from the spec: the vertical blend `3*in[i][c] + in[i-1][c]`
of section 4.1/4.2, computed on sample (byte) values in exact integer
arithmetic. -/
def refColsum (r1 radj : ℕ → ℕ) (c : ℕ) : ℕ :=
  3 * getjsample r1 c + getjsample radj c

/-- Modelled from the spec: one output row of the scalar reference
implementation exactly as section 4.1 words it, including its interior
blends `out[2c-1] = (3*s1colsum + s0colsum + 7) / 16` and
`out[2c] = (3*s0colsum + s1colsum + 8) / 16`, where `s0colsum` is the
vertical blend of input column `c-1` and `s1colsum` that of column `c`. -/
def specH2V2Row (radj r1 : ℕ → ℕ) (w k : ℕ) : ℕ :=
  if k = 0 then (refColsum r1 radj 0 * 4 + 8) / 16
  else if k = 2 * w - 1 then (refColsum r1 radj (w - 1) * 4 + 7) / 16
  else if k % 2 = 1 then
    (3 * refColsum r1 radj ((k + 1) / 2) + refColsum r1 radj ((k + 1) / 2 - 1) + 7) / 16
  else
    (3 * refColsum r1 radj (k / 2 - 1) + refColsum r1 radj (k / 2) + 8) / 16

/-- Scalar reference row with the interior weights the other way around
from the words of section 4.1: the 3x weight goes to the input column
nearer to the output pixel, `out[2c-1] = (3*s0colsum + s1colsum + 7) / 16`
and `out[2c] = (s0colsum + 3*s1colsum + 8) / 16`.  This is the candidate
amended reference for the equivalence claim. -/
def refH2V2Row (radj r1 : ℕ → ℕ) (w k : ℕ) : ℕ :=
  if k = 0 then (refColsum r1 radj 0 * 4 + 8) / 16
  else if k = 2 * w - 1 then (refColsum r1 radj (w - 1) * 4 + 7) / 16
  else if k % 2 = 1 then
    (3 * refColsum r1 radj ((k + 1) / 2 - 1) + refColsum r1 radj ((k + 1) / 2) + 7) / 16
  else
    (refColsum r1 radj (k / 2 - 1) + 3 * refColsum r1 radj (k / 2) + 8) / 16

/-- Modelled from the spec: section 4.2 top-row formula
`out_top[c] = (3*in[i][c] + in[i-1][c] + 1) / 4` (truncating). -/
def specH1V2Top (radj r1 : ℕ → ℕ) (k : ℕ) : ℕ := (refColsum r1 radj k + 1) / 4

/-- Modelled from the spec: section 4.2 bottom-row formula
`out_bottom[c] = (3*in[i][c] + in[i+1][c] + 2) / 4` (rounding shift). -/
def specH1V2Bot (radj r1 : ℕ → ℕ) (k : ℕ) : ℕ := (refColsum r1 radj k + 2) / 4

/- Generic lemmas about replaying stores. -/

theorem applyStores_cons (e : ℕ × ℕ) (l : List (ℕ × ℕ)) (buf : ℕ → ℕ) :
    applyStores (e :: l) buf
      = applyStores l (fun i => if i = e.1 then e.2 else buf i) := rfl

theorem applyStores_append (l m : List (ℕ × ℕ)) (buf : ℕ → ℕ) :
    applyStores (l ++ m) buf = applyStores m (applyStores l buf) := by
  simp [applyStores, List.foldl_append]

theorem applyStores_of_not_mem (l : List (ℕ × ℕ)) (buf : ℕ → ℕ) (i : ℕ)
    (h : ∀ e ∈ l, e.1 ≠ i) : applyStores l buf i = buf i := by
  induction l generalizing buf with
  | nil => rfl
  | cons e t ih =>
      rw [applyStores_cons, ih _ (fun x hx => h x (List.mem_cons_of_mem _ hx))]
      exact if_neg (Ne.symm (h e (List.mem_cons_self e t)))

/-- If every store to index `i` in the list carries the same value `v`,
and at least one such store exists, the replayed buffer holds `v` at `i`. -/
theorem applyStores_all_eq (l : List (ℕ × ℕ)) (buf : ℕ → ℕ) (i v : ℕ)
    (hex : ∃ e ∈ l, e.1 = i) (hall : ∀ e ∈ l, e.1 = i → e.2 = v) :
    applyStores l buf i = v := by
  induction l generalizing buf with
  | nil => simp at hex
  | cons e t ih =>
      rw [applyStores_cons]
      by_cases ht : ∃ x ∈ t, x.1 = i
      · exact ih _ ht (fun x hx => hall x (List.mem_cons_of_mem _ hx))
      · push_neg at ht
        rw [applyStores_of_not_mem _ _ _ ht]
        rcases hex with ⟨x, hx, hxi⟩
        rcases List.mem_cons.mp hx with h | h
        · subst h
          rw [if_pos hxi.symm]
          exact hall x (List.mem_cons_self _ _) hxi
        · exact absurd hxi (ht x h)

theorem applyStores_le (l : List (ℕ × ℕ)) (buf : ℕ → ℕ) (i m : ℕ)
    (hl : ∀ e ∈ l, e.2 ≤ m) (hb : ∀ j, buf j ≤ m) : applyStores l buf i ≤ m := by
  induction l generalizing buf with
  | nil => exact hb i
  | cons e t ih =>
      rw [applyStores_cons]
      refine ih _ (fun x hx => hl x (List.mem_cons_of_mem _ hx)) (fun j => ?_)
      dsimp only
      split
      · exact hl e (List.mem_cons_self _ _)
      · exact hb j

/- Shape of the h2v2 store list: every store is the first-pixel store, the
   last-pixel store, or an interior odd/even store for some column
   boundary `c >= 1`.  Note `++` associates to the left, so the list is
   `((first :: block0) ++ loop-blocks) ++ [last]`. -/

theorem vst2Block_shape {cs : ℕ → ℕ} {a : ℕ} {e : ℕ × ℕ}
    (he : e ∈ vst2Block cs a) :
    ∃ c, 1 ≤ c ∧
      (e = (2 * c - 1, h2v2OddVal cs c) ∨ e = (2 * c, h2v2EvenVal cs c)) := by
  simp only [vst2Block, List.mem_flatMap, List.mem_range, List.mem_cons,
    List.not_mem_nil, or_false] at he
  rcases he with ⟨j, hj, hodd | heven⟩
  · refine ⟨a + j + 1, by omega, Or.inl ?_⟩
    rw [hodd]
    simp only [Prod.mk.injEq]
    exact ⟨by omega, trivial⟩
  · refine ⟨a + j + 1, by omega, Or.inr ?_⟩
    rw [heven]
    simp only [Prod.mk.injEq]
    exact ⟨by omega, trivial⟩

theorem h2v2RowStores_shape {cs : ℕ → ℕ} {w : ℕ} {e : ℕ × ℕ}
    (he : e ∈ h2v2RowStores cs w) :
    e = (0, h2v2FirstVal cs) ∨ e = (2 * w - 1, h2v2LastVal cs w) ∨
      ∃ c, 1 ≤ c ∧
        (e = (2 * c - 1, h2v2OddVal cs c) ∨ e = (2 * c, h2v2EvenVal cs c)) := by
  simp only [h2v2RowStores, List.mem_append, List.mem_cons, List.mem_singleton,
    List.not_mem_nil, or_false, List.mem_flatMap, List.mem_range] at he
  rcases he with ((h | h) | ⟨k, hk, h⟩) | h
  · exact Or.inl h
  · exact Or.inr (Or.inr (vst2Block_shape h))
  · exact Or.inr (Or.inr (vst2Block_shape h))
  · exact Or.inr (Or.inl h)

/-- The interior odd store for boundary `c` (with `1 ≤ c < w`) is issued by
some 16-wide block of the kernel. -/
theorem odd_store_mem (cs : ℕ → ℕ) (w c : ℕ) (hc : 1 ≤ c) (hcw : c < w) :
    (2 * c - 1, h2v2OddVal cs c) ∈ h2v2RowStores cs w := by
  rw [h2v2RowStores]
  refine List.mem_append.mpr (Or.inl ?_)
  by_cases h16 : c ≤ 16
  · refine List.mem_append.mpr (Or.inl (List.mem_cons_of_mem _ ?_))
    refine List.mem_flatMap.mpr ⟨c - 1, List.mem_range.mpr (by omega), ?_⟩
    have h1 : 2 * (0 + (c - 1)) + 1 = 2 * c - 1 := by omega
    have h2 : 0 + (c - 1) + 1 = c := by omega
    rw [h1, h2]
    exact List.mem_cons_self _ _
  · refine List.mem_append.mpr (Or.inr ?_)
    refine List.mem_flatMap.mpr ⟨c / 16 - 1, List.mem_range.mpr (by omega), ?_⟩
    refine List.mem_flatMap.mpr ⟨c % 16, List.mem_range.mpr (by omega), ?_⟩
    have h1 : 2 * (16 * (c / 16 - 1 + 1) - 1 + c % 16) + 1 = 2 * c - 1 := by omega
    have h2 : 16 * (c / 16 - 1 + 1) - 1 + c % 16 + 1 = c := by omega
    rw [h1, h2]
    exact List.mem_cons_self _ _

/-- The interior even store for boundary `c` (with `1 ≤ c < w`) is issued
by some 16-wide block of the kernel. -/
theorem even_store_mem (cs : ℕ → ℕ) (w c : ℕ) (hc : 1 ≤ c) (hcw : c < w) :
    (2 * c, h2v2EvenVal cs c) ∈ h2v2RowStores cs w := by
  rw [h2v2RowStores]
  refine List.mem_append.mpr (Or.inl ?_)
  by_cases h16 : c ≤ 16
  · refine List.mem_append.mpr (Or.inl (List.mem_cons_of_mem _ ?_))
    refine List.mem_flatMap.mpr ⟨c - 1, List.mem_range.mpr (by omega), ?_⟩
    have h1 : 2 * (0 + (c - 1)) + 2 = 2 * c := by omega
    have h2 : 0 + (c - 1) + 1 = c := by omega
    rw [h1, h2]
    exact List.mem_cons_of_mem _ (List.mem_cons_self _ _)
  · refine List.mem_append.mpr (Or.inr ?_)
    refine List.mem_flatMap.mpr ⟨c / 16 - 1, List.mem_range.mpr (by omega), ?_⟩
    refine List.mem_flatMap.mpr ⟨c % 16, List.mem_range.mpr (by omega), ?_⟩
    have h1 : 2 * (16 * (c / 16 - 1 + 1) - 1 + c % 16) + 2 = 2 * c := by omega
    have h2 : 16 * (c / 16 - 1 + 1) - 1 + c % 16 + 1 = c := by omega
    rw [h1, h2]
    exact List.mem_cons_of_mem _ (List.mem_cons_self _ _)

/- Final content of one h2v2 output row at each logical index. -/

theorem h2v2Row_first (cs : ℕ → ℕ) (w : ℕ) (hw : 1 ≤ w) (buf : ℕ → ℕ) :
    applyStores (h2v2RowStores cs w) buf 0 = h2v2FirstVal cs := by
  apply applyStores_all_eq
  · exact ⟨(0, h2v2FirstVal cs), by simp [h2v2RowStores], rfl⟩
  · intro e he hei
    rcases h2v2RowStores_shape he with h | h | ⟨c, hc, h | h⟩
    · rw [h]
    · rw [h] at hei
      dsimp only at hei
      omega
    · rw [h] at hei
      dsimp only at hei
      omega
    · rw [h] at hei
      dsimp only at hei
      omega

theorem h2v2Row_last (cs : ℕ → ℕ) (w : ℕ) (buf : ℕ → ℕ) :
    applyStores (h2v2RowStores cs w) buf (2 * w - 1) = h2v2LastVal cs w := by
  rw [h2v2RowStores, applyStores_append]
  simp [applyStores]

theorem h2v2Row_odd (cs : ℕ → ℕ) (w c : ℕ) (hc : 1 ≤ c) (hcw : c < w)
    (buf : ℕ → ℕ) :
    applyStores (h2v2RowStores cs w) buf (2 * c - 1) = h2v2OddVal cs c := by
  apply applyStores_all_eq
  · exact ⟨(2 * c - 1, h2v2OddVal cs c), odd_store_mem cs w c hc hcw, rfl⟩
  · intro e he hei
    rcases h2v2RowStores_shape he with h | h | ⟨c', hc', h | h⟩
    · rw [h] at hei
      dsimp only at hei
      omega
    · rw [h] at hei
      dsimp only at hei
      omega
    · rw [h] at hei ⊢
      dsimp only at hei ⊢
      have hce : c' = c := by omega
      rw [hce]
    · rw [h] at hei
      dsimp only at hei
      omega

theorem h2v2Row_even (cs : ℕ → ℕ) (w c : ℕ) (hc : 1 ≤ c) (hcw : c < w)
    (buf : ℕ → ℕ) :
    applyStores (h2v2RowStores cs w) buf (2 * c) = h2v2EvenVal cs c := by
  apply applyStores_all_eq
  · exact ⟨(2 * c, h2v2EvenVal cs c), even_store_mem cs w c hc hcw, rfl⟩
  · intro e he hei
    rcases h2v2RowStores_shape he with h | h | ⟨c', hc', h | h⟩
    · rw [h] at hei
      dsimp only at hei
      omega
    · rw [h] at hei
      dsimp only at hei
      omega
    · rw [h] at hei
      dsimp only at hei
      omega
    · rw [h] at hei ⊢
      dsimp only at hei ⊢
      have hce : c' = c := by omega
      rw [hce]

/-- Final content of one h1v2 output row at every logical index. -/
theorem h1v2Row_at (val : ℕ → ℕ) (w k : ℕ) (hk : k < w) (buf : ℕ → ℕ) :
    applyStores (h1v2RowStores val w) buf k = val k := by
  apply applyStores_all_eq
  · refine ⟨(k, val k), ?_, rfl⟩
    refine List.mem_flatMap.mpr ⟨k / 16, List.mem_range.mpr (by omega), ?_⟩
    refine List.mem_map.mpr ⟨k % 16, List.mem_range.mpr (by omega), ?_⟩
    have h1 : 16 * (k / 16) + k % 16 = k := by omega
    rw [h1]
  · intro e he hei
    simp only [h1v2RowStores, List.mem_flatMap, List.mem_range,
      List.mem_map] at he
    rcases he with ⟨kk, hkk, j, hj, hej⟩
    rw [← hej] at hei ⊢
    dsimp only at hei ⊢
    rw [hei]

/- Bounds on sample reads and vertical blends, and removal of the
   hardware modular reductions (which never bite for byte inputs). -/

theorem getjsample_le (r : ℕ → ℕ) (c : ℕ) : getjsample r c ≤ 255 := by
  unfold getjsample
  omega

theorem getjsample_eq_of_le (r : ℕ → ℕ) (c : ℕ) (h : r c ≤ 255) :
    getjsample r c = r c := by
  unfold getjsample
  omega

/-- The 16-bit accumulation in `colsum` never wraps: for byte reads the
modular reduction is the identity. -/
theorem colsum_eq (r1 radj : ℕ → ℕ) (c : ℕ) :
    colsum r1 radj c = 3 * getjsample r1 c + getjsample radj c := by
  have h1 := getjsample_le r1 c
  have h2 := getjsample_le radj c
  unfold colsum
  omega

theorem colsum_le (r1 radj : ℕ → ℕ) (c : ℕ) : colsum r1 radj c ≤ 1020 := by
  rw [colsum_eq]
  have h1 := getjsample_le r1 c
  have h2 := getjsample_le radj c
  omega

theorem colsum_eq_of_le (r1 radj : ℕ → ℕ) (c : ℕ) (h1 : r1 c ≤ 255)
    (h2 : radj c ≤ 255) : colsum r1 radj c = 3 * r1 c + radj c := by
  rw [colsum_eq, getjsample_eq_of_le _ _ h1, getjsample_eq_of_le _ _ h2]

theorem h2v2OddVal_colsum (r1 radj : ℕ → ℕ) (c : ℕ) :
    h2v2OddVal (colsum r1 radj) c
      = (3 * colsum r1 radj (c - 1) + colsum r1 radj c + 7) / 16 := by
  have h1 := colsum_le r1 radj (c - 1)
  have h2 := colsum_le r1 radj c
  unfold h2v2OddVal
  have e1 : (3 * colsum r1 radj (c - 1) + colsum r1 radj c) % 65536
      = 3 * colsum r1 radj (c - 1) + colsum r1 radj c := by omega
  rw [e1]
  have e2 : (3 * colsum r1 radj (c - 1) + colsum r1 radj c + 7) % 65536
      = 3 * colsum r1 radj (c - 1) + colsum r1 radj c + 7 := by omega
  rw [e2]
  omega

theorem h2v2EvenVal_colsum (r1 radj : ℕ → ℕ) (c : ℕ) :
    h2v2EvenVal (colsum r1 radj) c
      = (colsum r1 radj (c - 1) + 3 * colsum r1 radj c + 8) / 16 := by
  have h1 := colsum_le r1 radj (c - 1)
  have h2 := colsum_le r1 radj c
  unfold h2v2EvenVal
  have e1 : (colsum r1 radj (c - 1) + 3 * colsum r1 radj c) % 65536
      = colsum r1 radj (c - 1) + 3 * colsum r1 radj c := by omega
  rw [e1]
  omega

theorem h2v2FirstVal_colsum (r1 radj : ℕ → ℕ) :
    h2v2FirstVal (colsum r1 radj) = (colsum r1 radj 0 * 4 + 8) / 16 := by
  have h1 := colsum_le r1 radj 0
  unfold h2v2FirstVal
  omega

theorem h2v2LastVal_colsum (r1 radj : ℕ → ℕ) (w : ℕ) :
    h2v2LastVal (colsum r1 radj) w = (colsum r1 radj (w - 1) * 4 + 7) / 16 := by
  have h1 := colsum_le r1 radj (w - 1)
  unfold h2v2LastVal
  omega

theorem h1v2TopVal_colsum (r1 radj : ℕ → ℕ) (c : ℕ) :
    h1v2TopVal (colsum r1 radj) c = (colsum r1 radj c + 1) / 4 := by
  have h1 := colsum_le r1 radj c
  unfold h1v2TopVal
  have e1 : (colsum r1 radj c + 1) % 65536 = colsum r1 radj c + 1 := by omega
  rw [e1]
  omega

theorem h1v2BotVal_colsum (r1 radj : ℕ → ℕ) (c : ℕ) :
    h1v2BotVal (colsum r1 radj) c = (colsum r1 radj c + 2) / 4 := by
  have h1 := colsum_le r1 radj c
  unfold h1v2BotVal
  omega

/- Claim theorems. -/

/-- C4: the first output pixel of each produced row pair is
`out_top[0] = ((3*in[i][0] + in[i-1][0]) * 4 + 8) >> 4` and
`out_bottom[0] = ((3*in[i][0] + in[i+1][0]) * 4 + 8) >> 4`, both with the
`+8` rounding constant. -/
theorem h2v2_first_pixel (input : ℤ → ℕ → ℕ) (w i : ℕ) (hw : 1 ≤ w)
    (hm : input i 0 ≤ 255) (ha : input ((i : ℤ) - 1) 0 ≤ 255)
    (hb : input ((i : ℤ) + 1) 0 ≤ 255) :
    h2v2OutTop input w i 0
      = ((3 * input i 0 + input ((i : ℤ) - 1) 0) * 4 + 8) / 16 ∧
    h2v2OutBot input w i 0
      = ((3 * input i 0 + input ((i : ℤ) + 1) 0) * 4 + 8) / 16 := by
  constructor
  · unfold h2v2OutTop neonH2V2Top
    rw [h2v2Row_first _ _ hw, h2v2FirstVal_colsum, colsum_eq_of_le _ _ _ hm ha]
  · unfold h2v2OutBot neonH2V2Bot
    rw [h2v2Row_first _ _ hw, h2v2FirstVal_colsum, colsum_eq_of_le _ _ _ hm hb]

/-- Witness for C4 at a concrete input. -/
theorem h2v2_first_pixel_witness :
    h2v2OutTop (fun _ _ => 30) 1 0 0 = ((3 * 30 + 30) * 4 + 8) / 16 :=
  (h2v2_first_pixel (fun _ _ => 30) 1 0 (by norm_num) (by norm_num)
    (by norm_num) (by norm_num)).1

/-- C3: the last output pixel of each row pair uses the first-pixel formula
structure on the last input column but with `+7` instead of `+8`:
`out_top[2w-1] = ((3*in[i][w-1] + in[i-1][w-1]) * 4 + 7) >> 4` and likewise
for the bottom row with `in[i+1]`. -/
theorem h2v2_last_pixel (input : ℤ → ℕ → ℕ) (w i : ℕ) (hw : 1 ≤ w)
    (hm : input i (w - 1) ≤ 255) (ha : input ((i : ℤ) - 1) (w - 1) ≤ 255)
    (hb : input ((i : ℤ) + 1) (w - 1) ≤ 255) :
    h2v2OutTop input w i (2 * w - 1)
      = ((3 * input i (w - 1) + input ((i : ℤ) - 1) (w - 1)) * 4 + 7) / 16 ∧
    h2v2OutBot input w i (2 * w - 1)
      = ((3 * input i (w - 1) + input ((i : ℤ) + 1) (w - 1)) * 4 + 7) / 16 := by
  constructor
  · unfold h2v2OutTop neonH2V2Top
    rw [h2v2Row_last, h2v2LastVal_colsum, colsum_eq_of_le _ _ _ hm ha]
  · unfold h2v2OutBot neonH2V2Bot
    rw [h2v2Row_last, h2v2LastVal_colsum, colsum_eq_of_le _ _ _ hm hb]

/-- Witness for C3 at a concrete input. -/
theorem h2v2_last_pixel_witness :
    h2v2OutTop (fun _ _ => 20) 1 0 (2 * 1 - 1) = ((3 * 20 + 20) * 4 + 7) / 16 :=
  (h2v2_last_pixel (fun _ _ => 20) 1 0 (by norm_num) (by norm_num)
    (by norm_num) (by norm_num)).1

/-- C5: in the h1v2 fancy upsampler, for every column `c < w`,
`out_top[c] = (3*in[i][c] + in[i-1][c] + 1) >> 2` (truncating, bias 1
pre-added) and `out_bottom[c] = (3*in[i][c] + in[i+1][c] + 2) >> 2`
(rounding shift), with no horizontal boundary special case. -/
theorem h1v2_pixels (input : ℤ → ℕ → ℕ) (w i c : ℕ) (hcw : c < w)
    (hm : input i c ≤ 255) (ha : input ((i : ℤ) - 1) c ≤ 255)
    (hb : input ((i : ℤ) + 1) c ≤ 255) :
    h1v2OutTop input w i c = (3 * input i c + input ((i : ℤ) - 1) c + 1) / 4 ∧
    h1v2OutBot input w i c = (3 * input i c + input ((i : ℤ) + 1) c + 2) / 4 := by
  constructor
  · unfold h1v2OutTop neonH1V2Top
    rw [h1v2Row_at _ _ _ hcw, h1v2TopVal_colsum, colsum_eq_of_le _ _ _ hm ha]
  · unfold h1v2OutBot neonH1V2Bot
    rw [h1v2Row_at _ _ _ hcw, h1v2BotVal_colsum, colsum_eq_of_le _ _ _ hm hb]

/-- Witness for C5 at a concrete input. -/
theorem h1v2_pixels_witness :
    h1v2OutTop (fun _ _ => 40) 1 0 0 = (3 * 40 + 40 + 1) / 4 :=
  (h1v2_pixels (fun _ _ => 40) 1 0 0 (by norm_num) (by norm_num)
    (by norm_num) (by norm_num)).1

/-- C9: the h2v2 upsampler is symmetric in its vertical context: swapping
the row above with the row below exchanges the two produced output rows,
column by column, because the top-row and bottom-row store sequences use
identical formulas and bias constants. -/
theorem h2v2_vertical_symmetry (r0 r1 r2 : ℕ → ℕ) (w k : ℕ) :
    neonH2V2Bot r0 r1 r2 w k = neonH2V2Top r2 r1 r0 w k ∧
    neonH2V2Top r0 r1 r2 w k = neonH2V2Bot r2 r1 r0 w k :=
  ⟨rfl, rfl⟩

/-- C6: for `downsampled_width = 1` the two logical output pixels of each
row pair hold exactly the boundary-formula values: index 0 the
first-pixel value (`+8` bias) and index 1 the last-pixel value (`+7`
bias), even though the unconditional 16-wide vector block also stores an
interior-formula value to index 1 first (final conjunct: that store is
really issued), which the scalar last-pixel store then overwrites. -/
theorem h2v2_width_one (input : ℤ → ℕ → ℕ) (i : ℕ)
    (hm : input i 0 ≤ 255) (ha : input ((i : ℤ) - 1) 0 ≤ 255)
    (hb : input ((i : ℤ) + 1) 0 ≤ 255) :
    h2v2OutTop input 1 i 0
      = ((3 * input i 0 + input ((i : ℤ) - 1) 0) * 4 + 8) / 16 ∧
    h2v2OutTop input 1 i 1
      = ((3 * input i 0 + input ((i : ℤ) - 1) 0) * 4 + 7) / 16 ∧
    h2v2OutBot input 1 i 0
      = ((3 * input i 0 + input ((i : ℤ) + 1) 0) * 4 + 8) / 16 ∧
    h2v2OutBot input 1 i 1
      = ((3 * input i 0 + input ((i : ℤ) + 1) 0) * 4 + 7) / 16 ∧
    (1, h2v2OddVal (colsum (input i) (input ((i : ℤ) - 1))) 1)
      ∈ vst2Block (colsum (input i) (input ((i : ℤ) - 1))) 0 := by
  refine ⟨?_, ?_, ?_, ?_, ?_⟩
  · unfold h2v2OutTop neonH2V2Top
    rw [h2v2Row_first _ _ (by norm_num), h2v2FirstVal_colsum,
      colsum_eq_of_le _ _ _ hm ha]
  · unfold h2v2OutTop neonH2V2Top
    have h := h2v2Row_last (colsum (input (i : ℤ)) (input ((i : ℤ) - 1))) 1
      (fun _ => 0)
    rw [show (2 * 1 - 1 : ℕ) = 1 from rfl] at h
    rw [h, h2v2LastVal_colsum, show (1 - 1 : ℕ) = 0 from rfl,
      colsum_eq_of_le _ _ _ hm ha]
  · unfold h2v2OutBot neonH2V2Bot
    rw [h2v2Row_first _ _ (by norm_num), h2v2FirstVal_colsum,
      colsum_eq_of_le _ _ _ hm hb]
  · unfold h2v2OutBot neonH2V2Bot
    have h := h2v2Row_last (colsum (input (i : ℤ)) (input ((i : ℤ) + 1))) 1
      (fun _ => 0)
    rw [show (2 * 1 - 1 : ℕ) = 1 from rfl] at h
    rw [h, h2v2LastVal_colsum, show (1 - 1 : ℕ) = 0 from rfl,
      colsum_eq_of_le _ _ _ hm hb]
  · exact List.mem_flatMap.mpr
      ⟨0, List.mem_range.mpr (by norm_num), List.mem_cons_self _ _⟩

/-- Witness for C6 at a concrete input. -/
theorem h2v2_width_one_witness :
    h2v2OutTop (fun _ _ => 50) 1 0 1 = ((3 * 50 + 50) * 4 + 7) / 16 :=
  (h2v2_width_one (fun _ _ => 50) 0 (by norm_num) (by norm_num)
    (by norm_num)).2.1

/-- C1 (amended): for every interior column boundary `1 ≤ c < w` with
`s0colsum = 3*in[i][c-1] + in[i-1][c-1]` (column `c-1`) and
`s1colsum = 3*in[i][c] + in[i-1][c]` (column `c`), the kernel stores
`out_top[2c-1] = (3*s0colsum + s1colsum + 7) >> 4` (truncating) and
`out_top[2c] = (s0colsum + 3*s1colsum + 8) >> 4` — the 3x weight goes to
the column nearer the output pixel, which is the opposite of the
spec's wording — and likewise for `out_bottom` using `in[i+1]`. -/
theorem h2v2_interior_pixels (input : ℤ → ℕ → ℕ) (w i c : ℕ)
    (hc : 1 ≤ c) (hcw : c < w)
    (hm : ∀ j, input i j ≤ 255) (ha : ∀ j, input ((i : ℤ) - 1) j ≤ 255)
    (hb : ∀ j, input ((i : ℤ) + 1) j ≤ 255) :
    h2v2OutTop input w i (2 * c - 1)
      = (3 * (3 * input i (c - 1) + input ((i : ℤ) - 1) (c - 1))
          + (3 * input i c + input ((i : ℤ) - 1) c) + 7) / 16 ∧
    h2v2OutTop input w i (2 * c)
      = ((3 * input i (c - 1) + input ((i : ℤ) - 1) (c - 1))
          + 3 * (3 * input i c + input ((i : ℤ) - 1) c) + 8) / 16 ∧
    h2v2OutBot input w i (2 * c - 1)
      = (3 * (3 * input i (c - 1) + input ((i : ℤ) + 1) (c - 1))
          + (3 * input i c + input ((i : ℤ) + 1) c) + 7) / 16 ∧
    h2v2OutBot input w i (2 * c)
      = ((3 * input i (c - 1) + input ((i : ℤ) + 1) (c - 1))
          + 3 * (3 * input i c + input ((i : ℤ) + 1) c) + 8) / 16 := by
  refine ⟨?_, ?_, ?_, ?_⟩
  · unfold h2v2OutTop neonH2V2Top
    rw [h2v2Row_odd _ _ _ hc hcw, h2v2OddVal_colsum,
      colsum_eq_of_le _ _ _ (hm (c - 1)) (ha (c - 1)),
      colsum_eq_of_le _ _ _ (hm c) (ha c)]
  · unfold h2v2OutTop neonH2V2Top
    rw [h2v2Row_even _ _ _ hc hcw, h2v2EvenVal_colsum,
      colsum_eq_of_le _ _ _ (hm (c - 1)) (ha (c - 1)),
      colsum_eq_of_le _ _ _ (hm c) (ha c)]
  · unfold h2v2OutBot neonH2V2Bot
    rw [h2v2Row_odd _ _ _ hc hcw, h2v2OddVal_colsum,
      colsum_eq_of_le _ _ _ (hm (c - 1)) (hb (c - 1)),
      colsum_eq_of_le _ _ _ (hm c) (hb c)]
  · unfold h2v2OutBot neonH2V2Bot
    rw [h2v2Row_even _ _ _ hc hcw, h2v2EvenVal_colsum,
      colsum_eq_of_le _ _ _ (hm (c - 1)) (hb (c - 1)),
      colsum_eq_of_le _ _ _ (hm c) (hb c)]

/-- Witness for the amended C1 at a concrete input. -/
theorem h2v2_interior_pixels_witness :
    h2v2OutTop (fun _ _ => 10) 2 0 (2 * 1 - 1)
      = (3 * (3 * 10 + 10) + (3 * 10 + 10) + 7) / 16 :=
  (h2v2_interior_pixels (fun _ _ => 10) 2 0 1 (by norm_num) (by norm_num)
    (fun _ => by norm_num) (fun _ => by norm_num) (fun _ => by norm_num)).1

/-- Counterexample to C1 as stated: with the row above and the row below
all zero, current row `in[0] = [0, 17, 0, ...]`, width 2, boundary `c = 1`:
`s0colsum0 = 3*in[0][0] + in[-1][0] = 0` and
`s1colsum0 = 3*in[0][1] + in[-1][1] = 51`, so the claim predicts
`out_top[1] = (3*s1colsum0 + s0colsum0 + 7) >> 4 = (3*51 + 0 + 7)/16 = 10`,
but the kernel stores `(3*s0colsum0 + s1colsum0 + 7) >> 4 = 58/16 = 3`. -/
theorem h2v2_interior_claim_counterexample :
    h2v2OutTop (fun r c => if r = 0 ∧ c = 1 then 17 else 0) 2 0 (2 * 1 - 1)
      ≠ (3 * (3 * 17 + 0) + (3 * 0 + 0) + 7) / 16 := by
  decide

/-- One h2v2 output row agrees with the corrected scalar reference at
every logical index. -/
theorem h2v2_matches_ref_at (radj r1 : ℕ → ℕ) (w k : ℕ) (hw : 1 ≤ w)
    (hk : k < 2 * w) (buf : ℕ → ℕ) :
    applyStores (h2v2RowStores (colsum r1 radj) w) buf k
      = refH2V2Row radj r1 w k := by
  unfold refH2V2Row
  by_cases h0 : k = 0
  · subst h0
    rw [if_pos rfl, h2v2Row_first _ _ hw, h2v2FirstVal_colsum, colsum_eq]
    rfl
  · rw [if_neg h0]
    by_cases hl : k = 2 * w - 1
    · rw [if_pos hl, hl, h2v2Row_last, h2v2LastVal_colsum, colsum_eq]
      rfl
    · rw [if_neg hl]
      by_cases hpar : k % 2 = 1
      · rw [if_pos hpar]
        obtain ⟨c, hc1, hc2, hkc, hkc2⟩ :
            ∃ c, 1 ≤ c ∧ c < w ∧ k = 2 * c - 1 ∧ (k + 1) / 2 = c :=
          ⟨(k + 1) / 2, by omega, by omega, by omega, rfl⟩
        rw [hkc2, hkc, h2v2Row_odd _ _ _ hc1 hc2, h2v2OddVal_colsum,
          colsum_eq, colsum_eq]
        rfl
      · rw [if_neg hpar]
        obtain ⟨c, hc1, hc2, hkc, hkc2⟩ :
            ∃ c, 1 ≤ c ∧ c < w ∧ k = 2 * c ∧ k / 2 = c :=
          ⟨k / 2, by omega, by omega, by omega, rfl⟩
        rw [hkc2, hkc, h2v2Row_even _ _ _ hc1 hc2, h2v2EvenVal_colsum,
          colsum_eq, colsum_eq]
        rfl

/-- C2 (amended): the vectorized kernels are bit-identical, on the
logical-width prefix of every produced row, to the scalar reference with
the section 4.1 interior formulas corrected so the 3x weight goes to the
nearer input column (`refH2V2Row`); the section 4.2 formulas need no
correction (`specH1V2Top`/`specH1V2Bot`). -/
theorem upsample_matches_scalar_reference (input : ℤ → ℕ → ℕ) (w i : ℕ)
    (hw : 1 ≤ w) :
    (∀ k, k < 2 * w →
      h2v2OutTop input w i k = refH2V2Row (input ((i : ℤ) - 1)) (input i) w k ∧
      h2v2OutBot input w i k = refH2V2Row (input ((i : ℤ) + 1)) (input i) w k) ∧
    (∀ k, k < w →
      h1v2OutTop input w i k = specH1V2Top (input ((i : ℤ) - 1)) (input i) k ∧
      h1v2OutBot input w i k = specH1V2Bot (input ((i : ℤ) + 1)) (input i) k) := by
  constructor
  · intro k hk
    exact ⟨h2v2_matches_ref_at _ _ _ _ hw hk _, h2v2_matches_ref_at _ _ _ _ hw hk _⟩
  · intro k hk
    constructor
    · unfold h1v2OutTop neonH1V2Top
      rw [h1v2Row_at _ _ _ hk, h1v2TopVal_colsum, colsum_eq]
      rfl
    · unfold h1v2OutBot neonH1V2Bot
      rw [h1v2Row_at _ _ _ hk, h1v2BotVal_colsum, colsum_eq]
      rfl

/-- Witness for the amended C2 at a concrete input. -/
theorem upsample_matches_scalar_reference_witness :
    h2v2OutTop (fun _ _ => 0) 1 0 0 = refH2V2Row (fun _ => 0) (fun _ => 0) 1 0 :=
  ((upsample_matches_scalar_reference (fun _ _ => 0) 1 0 (by norm_num)).1
    0 (by norm_num)).1

/-- Counterexample to C2 as stated: on the same input as the C1
counterexample the kernel's output at index 1 differs from the scalar
reference that follows the words of section 4.1 (`specH2V2Row`): the
kernel stores 3, the spec formula predicts 10. -/
theorem spec_reference_counterexample :
    h2v2OutTop (fun r c => if r = 0 ∧ c = 1 then 17 else 0) 2 0 1
      ≠ specH2V2Row (fun _ => 0) (fun c => if c = 1 then 17 else 0) 2 1 := by
  decide

/-- On a constant colsum `4*v` every h2v2 output value in the logical
prefix is exactly `v`. -/
theorem h2v2_flat_at (cs : ℕ → ℕ) (w v k : ℕ) (hv : v ≤ 255) (hw : 1 ≤ w)
    (hk : k < 2 * w) (hcs : ∀ c, cs c = 4 * v) (buf : ℕ → ℕ) :
    applyStores (h2v2RowStores cs w) buf k = v := by
  by_cases h0 : k = 0
  · subst h0
    rw [h2v2Row_first _ _ hw]
    unfold h2v2FirstVal
    rw [hcs]
    omega
  · by_cases hl : k = 2 * w - 1
    · rw [hl, h2v2Row_last]
      unfold h2v2LastVal
      rw [hcs]
      omega
    · by_cases hpar : k % 2 = 1
      · obtain ⟨c, hc1, hc2, hkc⟩ : ∃ c, 1 ≤ c ∧ c < w ∧ k = 2 * c - 1 :=
          ⟨(k + 1) / 2, by omega, by omega, by omega⟩
        rw [hkc, h2v2Row_odd _ _ _ hc1 hc2]
        unfold h2v2OddVal
        rw [hcs, hcs]
        have e1 : (3 * (4 * v) + 4 * v) % 65536 = 16 * v := by omega
        rw [e1]
        have e2 : (16 * v + 7) % 65536 = 16 * v + 7 := by omega
        rw [e2]
        omega
      · obtain ⟨c, hc1, hc2, hkc⟩ : ∃ c, 1 ≤ c ∧ c < w ∧ k = 2 * c :=
          ⟨k / 2, by omega, by omega, by omega⟩
        rw [hkc, h2v2Row_even _ _ _ hc1 hc2]
        unfold h2v2EvenVal
        rw [hcs, hcs]
        have e1 : (4 * v + 3 * (4 * v)) % 65536 = 16 * v := by omega
        rw [e1]
        omega

/-- C7: if every sample of the three context rows equals a constant
`v ≤ 255`, then every output pixel of every row produced by either
upsampler equals `v` exactly, for every width `w ≥ 1` and every
row-group size. -/
theorem flat_input_invariant (maxv w : ℕ) (input : ℤ → ℕ → ℕ) (v : ℕ)
    (hv : v ≤ 255) (hw : 1 ≤ w) (hflat : ∀ r c, input r c = v) :
    (∀ row ∈ jsimd_h2v2_fancy_upsample_neon maxv w input,
      ∀ k, k < 2 * w → row k = v) ∧
    (∀ row ∈ jsimd_h1v2_fancy_upsample_neon maxv w input,
      ∀ k, k < w → row k = v) := by
  have hcs : ∀ (a b : ℤ) (c : ℕ), colsum (input a) (input b) c = 4 * v := by
    intro a b c
    rw [colsum_eq_of_le _ _ _ (by rw [hflat]; exact hv) (by rw [hflat]; exact hv),
      hflat, hflat]
    omega
  constructor
  · intro row hrow k hk
    simp only [jsimd_h2v2_fancy_upsample_neon, List.mem_flatMap, List.mem_range,
      List.mem_cons, List.not_mem_nil, or_false] at hrow
    rcases hrow with ⟨i, hi, hrow | hrow⟩ <;> rw [hrow]
    · unfold h2v2OutTop neonH2V2Top
      exact h2v2_flat_at _ _ _ _ hv hw hk (hcs _ _) _
    · unfold h2v2OutBot neonH2V2Bot
      exact h2v2_flat_at _ _ _ _ hv hw hk (hcs _ _) _
  · intro row hrow k hk
    simp only [jsimd_h1v2_fancy_upsample_neon, List.mem_flatMap, List.mem_range,
      List.mem_cons, List.not_mem_nil, or_false] at hrow
    rcases hrow with ⟨i, hi, hrow | hrow⟩ <;> rw [hrow]
    · unfold h1v2OutTop neonH1V2Top
      rw [h1v2Row_at _ _ _ hk]
      unfold h1v2TopVal
      rw [hcs]
      have e1 : (4 * v + 1) % 65536 = 4 * v + 1 := by omega
      rw [e1]
      omega
    · unfold h1v2OutBot neonH1V2Bot
      rw [h1v2Row_at _ _ _ hk]
      unfold h1v2BotVal
      rw [hcs]
      omega

/-- Witness for C7 at a concrete input. -/
theorem flat_input_invariant_witness :
    h2v2OutTop (fun _ _ => 5) 1 0 0 = 5 :=
  (flat_input_invariant 2 1 (fun _ _ => 5) 5 (by norm_num) (by norm_num)
    (fun _ _ => rfl)).1 (h2v2OutTop (fun _ _ => 5) 1 0)
    (List.mem_flatMap.mpr ⟨0, List.mem_range.mpr (by norm_num),
      List.mem_cons_self _ _⟩) 0 (by norm_num)

/-- C8: for 8-bit samples every intermediate h2v2 sum fits in 16 bits:
each vertical colsum is at most `3*255 + 255 = 1020` and every value
formed before the shift-right-by-4 (the 3:1 blend of two colsums plus the
dithering bias, or a boundary colsum times 4 plus the bias) is below
`2^16`, so the 16-bit modular reductions performed by the vector
arithmetic are the identity. -/
theorem h2v2_no_sixteen_bit_overflow (r0 r1 : ℕ → ℕ) (a b c : ℕ) :
    colsum r1 r0 c ≤ 1020 ∧
    3 * colsum r1 r0 a + colsum r1 r0 b + 7 < 65536 ∧
    colsum r1 r0 a + 3 * colsum r1 r0 b + 8 < 65536 ∧
    colsum r1 r0 c * 4 + 8 < 65536 ∧
    colsum r1 r0 c * 4 + 7 < 65536 ∧
    ((3 * colsum r1 r0 a + colsum r1 r0 b) % 65536 + 7) % 65536
      = 3 * colsum r1 r0 a + colsum r1 r0 b + 7 ∧
    (colsum r1 r0 a + 3 * colsum r1 r0 b) % 65536
      = colsum r1 r0 a + 3 * colsum r1 r0 b := by
  have h1 := colsum_le r1 r0 a
  have h2 := colsum_le r1 r0 b
  have h3 := colsum_le r1 r0 c
  exact ⟨h3, by omega, by omega, by omega, by omega, by omega, by omega⟩

/-- Every value stored by the h2v2 kernel is a byte. -/
theorem h2v2RowStores_val_le (cs : ℕ → ℕ) (w : ℕ) :
    ∀ e ∈ h2v2RowStores cs w, e.2 ≤ 255 := by
  intro e he
  rcases h2v2RowStores_shape he with h | h | ⟨c, hc, h | h⟩ <;>
    rw [h] <;> dsimp only
  · unfold h2v2FirstVal
    omega
  · unfold h2v2LastVal
    omega
  · unfold h2v2OddVal
    omega
  · unfold h2v2EvenVal
    omega

/-- Every value stored by the h1v2 kernel is a byte, as soon as the
per-column value function produces bytes. -/
theorem h1v2RowStores_val_le (val : ℕ → ℕ) (w : ℕ)
    (hval : ∀ c, val c ≤ 255) : ∀ e ∈ h1v2RowStores val w, e.2 ≤ 255 := by
  intro e he
  simp only [h1v2RowStores, List.mem_flatMap, List.mem_range,
    List.mem_map] at he
  rcases he with ⟨kk, hkk, j, hj, hej⟩
  rw [← hej]
  exact hval _

/-- C10: every value produced by a right shift in either kernel is at most
255 — the h2v2 interior maximum is `(3*1020 + 1020 + 8) >> 4 = 255` and
the h1v2 maximum is `(3*255 + 255 + 2) >> 2 = 255` — so the
non-saturating 8-bit narrowing never wraps and every output pixel lies in
`[0, 255]`. -/
theorem output_fits_eight_bits (r0 r1 r2 : ℕ → ℕ) (w k a b c : ℕ) :
    (3 * colsum r1 r0 a + colsum r1 r0 b + 7) / 16 ≤ 255 ∧
    (colsum r1 r0 a + 3 * colsum r1 r0 b + 8) / 16 ≤ 255 ∧
    (colsum r1 r0 c * 4 + 8) / 16 ≤ 255 ∧
    (colsum r1 r0 c * 4 + 7) / 16 ≤ 255 ∧
    (colsum r1 r0 c + 1) / 4 ≤ 255 ∧
    (colsum r1 r0 c + 2) / 4 ≤ 255 ∧
    (3 * colsum r1 r0 a + colsum r1 r0 b + 7) / 16 % 256
      = (3 * colsum r1 r0 a + colsum r1 r0 b + 7) / 16 ∧
    neonH2V2Top r0 r1 r2 w k ≤ 255 ∧ neonH2V2Bot r0 r1 r2 w k ≤ 255 ∧
    neonH1V2Top r0 r1 r2 w k ≤ 255 ∧ neonH1V2Bot r0 r1 r2 w k ≤ 255 := by
  have h1 := colsum_le r1 r0 a
  have h2 := colsum_le r1 r0 b
  have h3 := colsum_le r1 r0 c
  refine ⟨by omega, by omega, by omega, by omega, by omega, by omega, by omega,
    ?_, ?_, ?_, ?_⟩
  · exact applyStores_le _ _ _ _ (h2v2RowStores_val_le _ _)
      (fun _ => Nat.zero_le 255)
  · exact applyStores_le _ _ _ _ (h2v2RowStores_val_le _ _)
      (fun _ => Nat.zero_le 255)
  · refine applyStores_le _ _ _ _ (h1v2RowStores_val_le _ _ (fun cc => ?_))
      (fun _ => Nat.zero_le 255)
    unfold h1v2TopVal
    omega
  · refine applyStores_le _ _ _ _ (h1v2RowStores_val_le _ _ (fun cc => ?_))
      (fun _ => Nat.zero_le 255)
    unfold h1v2BotVal
    omega
